import Mathlib

/-!
Shallow embedding of `src/src/effects.py` (class `GuitarAmpEffects`) from the
virtual-amp-system repository, together with theorems settling the frozen
claims about it.

Modelling conventions:
* Python floats are modelled as exact rationals (`ℚ`); an audio block
  (`np.ndarray`) is a `List ℚ`.
* `np.tanh` is a transcendental function of the external numpy library; it is
  modelled as an explicit function parameter `th : ℚ → ℚ` of the distortion
  stage.  The only fact about `np.tanh` any theorem uses is that it maps every
  input strictly into `(-1, 1)`; the lemmas `tanh_lt_one` / `neg_one_lt_tanh`
  below prove that this modelling hypothesis is true of the real hyperbolic
  tangent, and `softsign` is a computable rational function with the same
  property, used to instantiate the parameter in concrete witnesses.
* `scipy.signal.butter(2, …, output='sos')` is an external library call whose
  (irrational) coefficients depend only on the sample rate; `apply_eq` is
  therefore parametrised by the three second-order-section coefficient lists.
  `scipy.signal.sosfilt` itself is embedded faithfully below (`sosfilt`): a
  cascade of direct-form-II-transposed biquads, and — exactly as in the
  source, which passes no `zi` argument — every call starts from the all-zero
  initial state.
* The mutable engine state touched by processing (`reverb_buffer`,
  `reverb_index`, and the stored `reverb_buffer_size`) is passed and returned
  explicitly.
-/

namespace VirtualAmp

/-- Model of `np.clip(v, lo, hi)`: `np.minimum(hi, np.maximum(v, lo))`. -/
def np_clip (v lo hi : ℚ) : ℚ := min (max v lo) hi

/-- The six effect parameters of `GuitarAmpEffects` (floats on the Python
object). -/
structure Params where
  gain : ℚ
  distortion : ℚ
  bass : ℚ
  mid : ℚ
  treble : ℚ
  reverb_mix : ℚ
deriving DecidableEq

/-- The parameter values set in `GuitarAmpEffects.__init__`. -/
def initParams : Params :=
  { gain := 1, distortion := 0, bass := 0, mid := 0, treble := 0, reverb_mix := 0 }

/-- A partial update, modelling the `**kwargs` of `set_parameters`: each of
the six named fields is independently present (`some v`) or absent (`none`). -/
structure ParamUpdate where
  gain? : Option ℚ := none
  distortion? : Option ℚ := none
  bass? : Option ℚ := none
  mid? : Option ℚ := none
  treble? : Option ℚ := none
  reverb_mix? : Option ℚ := none

/-- Model of `GuitarAmpEffects.set_parameters`: each present field is clamped
by `np.clip` to its declared range and stored; each absent field keeps its
previous value.  Total — no error path exists. -/
def set_parameters (p : Params) (u : ParamUpdate) : Params where
  gain := match u.gain? with
    | some v => np_clip v (1/10) 5
    | none => p.gain
  distortion := match u.distortion? with
    | some v => np_clip v 0 1
    | none => p.distortion
  bass := match u.bass? with
    | some v => np_clip v (-1) 1
    | none => p.bass
  mid := match u.mid? with
    | some v => np_clip v (-1) 1
    | none => p.mid
  treble := match u.treble? with
    | some v => np_clip v (-1) 1
    | none => p.treble
  reverb_mix := match u.reverb_mix? with
    | some v => np_clip v 0 1
    | none => p.reverb_mix

/-- Model of `GuitarAmpEffects.apply_gain`: `audio * self.gain` elementwise.
A pure function of the block and the gain parameter alone: it reads no other
engine state and returns no state. -/
def apply_gain (g : ℚ) (audio : List ℚ) : List ℚ :=
  audio.map (fun x => x * g)

/-- Model of `GuitarAmpEffects.apply_distortion`.  `th` stands for `np.tanh`
(see the header).  If `distortion == 0.0` the input is returned unchanged;
otherwise each sample is scaled by `dist_factor = 1 + distortion * 49`, passed
through the nonlinearity, and divided by `1 + distortion * 0.5`. -/
def apply_distortion (th : ℚ → ℚ) (d : ℚ) (audio : List ℚ) : List ℚ :=
  if d = 0 then audio
  else audio.map (fun x => th (x * (1 + d * 49)) / (1 + d * (1/2)))

/-- One normalised second-order section (`a0 = 1`), as produced by
`scipy.signal.butter(2, …, output='sos')`. -/
structure Biquad where
  b0 : ℚ
  b1 : ℚ
  b2 : ℚ
  a1 : ℚ
  a2 : ℚ
deriving DecidableEq

/-- One direct-form-II-transposed biquad pass over a block, threading the
two-element delay state `(z1, z2)`: `y = b0*x + z1`; `z1 ← b1*x + z2 - a1*y`;
`z2 ← b2*x - a2*y`.  This is the per-section recurrence of
`scipy.signal.sosfilt`. -/
def biquadRun (c : Biquad) : ℚ × ℚ → List ℚ → List ℚ × (ℚ × ℚ)
  | s, [] => ([], s)
  | s, x :: xs =>
      let y := c.b0 * x + s.1
      let r := biquadRun c (c.b1 * x + s.2 - c.a1 * y, c.b2 * x - c.a2 * y) xs
      (y :: r.1, r.2)

/-- Model of `scipy.signal.sosfilt(sos, audio)` with the default zero initial
conditions: the sections are applied in cascade, each starting from the
all-zero delay state — exactly what `apply_eq` invokes, since the source never
passes or stores a `zi`. -/
def sosfilt (sos : List Biquad) (audio : List ℚ) : List ℚ :=
  sos.foldl (fun a c => (biquadRun c (0, 0) a).1) audio

/-- Elementwise (numpy broadcast) sum of two blocks. -/
def vadd (a b : List ℚ) : List ℚ := List.zipWith (fun x y => x + y) a b

/-- Elementwise (numpy broadcast) difference of two blocks. -/
def vsub (a b : List ℚ) : List ℚ := List.zipWith (fun x y => x - y) a b

/-- Elementwise product of a block with a scalar. -/
def vscale (a : List ℚ) (c : ℚ) : List ℚ := a.map (fun x => x * c)

/-- Model of `GuitarAmpEffects.apply_eq`, parametrised by the three
`butter`-designed section lists (see the header).  Starting from
`result = audio.copy()`, each band whose control is non-zero filters the
*original* input from zero filter state and adds its contribution:
bass adds `(bass_signal - audio) * (1 + bass)`, treble adds
`(treble_signal - audio) * (1 + treble)`, mid adds
`mid_signal * (1 + mid) * 0.5`.  No filter state enters or leaves the call:
the Python object stores none, so every call refilters from scratch. -/
def apply_eq (sosBass sosTreble sosMid : List Biquad)
    (bass treble mid : ℚ) (audio : List ℚ) : List ℚ :=
  let result := audio
  let result := if bass ≠ 0 then
      vadd result (vscale (vsub (sosfilt sosBass audio) audio) (1 + bass))
    else result
  let result := if treble ≠ 0 then
      vadd result (vscale (vsub (sosfilt sosTreble audio) audio) (1 + treble))
    else result
  let result := if mid ≠ 0 then
      vadd result (vscale (vscale (sosfilt sosMid audio) (1 + mid)) (1/2))
    else result
  result

/-- The sample-by-sample loop of `apply_reverb` for `reverb_mix ≠ 0`:
read `delayed = buffer[index]`, write `buffer[index] = x + delayed * 0.3`,
output `x * (1 - mix) + delayed * mix`, advance
`index = (index + 1) % size`.  Returns the outputs together with the final
buffer and cursor. -/
def reverbLoop (mix : ℚ) (size : ℕ) (buf : List ℚ) (idx : ℕ) :
    List ℚ → List ℚ × List ℚ × ℕ
  | [] => ([], buf, idx)
  | x :: xs =>
      let delayed := buf.getD idx 0
      let r := reverbLoop mix size (buf.set idx (x + delayed * (3/10)))
        ((idx + 1) % size) xs
      ((x * (1 - mix) + delayed * mix) :: r.1, r.2)

/-- Model of `GuitarAmpEffects.apply_reverb`: if `reverb_mix == 0.0` the input
is returned with the buffer and cursor untouched; otherwise the sequential
delay-line loop runs over the block. -/
def apply_reverb (mix : ℚ) (size : ℕ) (buf : List ℚ) (idx : ℕ)
    (audio : List ℚ) : List ℚ × List ℚ × ℕ :=
  if mix = 0 then (audio, buf, idx) else reverbLoop mix size buf idx audio

/-- The mutable reverb state of the engine object: `reverb_buffer_size`,
`reverb_buffer`, `reverb_index`. -/
structure EngineState where
  size : ℕ
  buf : List ℚ
  idx : ℕ
deriving DecidableEq

/-- Model of `int(0.05 * sample_rate)`: the 50 ms delay-line capacity
(`2205` at the default rate of 44100 Hz). -/
def reverbCapacity (sampleRate : ℕ) : ℕ := sampleRate / 20

/-- The reverb state built by `GuitarAmpEffects.__init__`: an all-zero buffer
of the 50 ms capacity with the cursor at 0. -/
def initState (sampleRate : ℕ) : EngineState :=
  { size := reverbCapacity sampleRate
    buf := List.replicate (reverbCapacity sampleRate) 0
    idx := 0 }

/-- Model of `GuitarAmpEffects.process`: the fixed chain
Gain → Distortion → EQ → Reverb, returning the output block and the
updated engine state. -/
def process (th : ℚ → ℚ) (sosBass sosTreble sosMid : List Biquad)
    (p : Params) (st : EngineState) (audio : List ℚ) :
    List ℚ × EngineState :=
  let a1 := apply_gain p.gain audio
  let a2 := apply_distortion th p.distortion a1
  let a3 := apply_eq sosBass sosTreble sosMid p.bass p.treble p.mid a2
  let r := apply_reverb p.reverb_mix st.size st.buf st.idx a3
  (r.1, { size := st.size, buf := r.2.1, idx := r.2.2 })

/-- A computable stand-in for the abstract `tanh` parameter: the softsign
function, which (like `tanh`) maps every rational strictly into `(-1, 1)`.
Used only to instantiate witnesses and counterexamples. -/
def softsign (x : ℚ) : ℚ := x / (1 + |x|)

/-- Delay buffer holding `e` in slot 0 and zeros elsewhere (capacity `C`). -/
def impulseBuf (C : ℕ) (e : ℚ) : List ℚ := (List.replicate C (0 : ℚ)).set 0 e

/-- The echo train claimed by the spec: `k` groups, each of `C - 1` silent
samples followed by one echo, each successive echo's amplitude the previous
one's times `0.3`. -/
def echoTrain (C : ℕ) : ℕ → ℚ → List ℚ
  | 0, _ => []
  | k + 1, a => (List.replicate (C - 1) 0 ++ [a]) ++ echoTrain C k (a * (3/10))

/-! ### General-purpose lemmas -/

/-- The real hyperbolic tangent is strictly below 1 — the upper half of the
modelling hypothesis placed on the abstract `th` parameter. -/
theorem tanh_lt_one (x : ℝ) : Real.tanh x < 1 := by
  rw [Real.tanh_eq_sinh_div_cosh, div_lt_one (Real.cosh_pos x)]
  nlinarith [Real.cosh_sq x, Real.cosh_pos x, Real.sinh_sq x]

/-- The real hyperbolic tangent is strictly above -1 — the lower half of the
modelling hypothesis placed on the abstract `th` parameter. -/
theorem neg_one_lt_tanh (x : ℝ) : -1 < Real.tanh x := by
  rw [Real.tanh_eq_sinh_div_cosh, lt_div_iff₀ (Real.cosh_pos x)]
  nlinarith [Real.cosh_sq x, Real.cosh_pos x, Real.sinh_sq x]

/-- The softsign stand-in satisfies the same strict `(-1, 1)` bound. -/
theorem softsign_mem (x : ℚ) : -1 < softsign x ∧ softsign x < 1 := by
  have h : (0 : ℚ) < 1 + |x| := by positivity
  constructor
  · rw [softsign, lt_div_iff₀ h]
    linarith [neg_abs_le x]
  · rw [softsign, div_lt_one h]
    linarith [le_abs_self x]

/-- Writing back the value already stored at a position leaves a list
unchanged (also when the position is out of range). -/
theorem set_getD_self (l : List ℚ) : ∀ i : ℕ, l.set i (l.getD i 0) = l := by
  induction l with
  | nil => intro i; rfl
  | cons a t ih =>
    intro i
    cases i with
    | zero => rfl
    | succ n =>
      rw [List.getD_cons_succ]
      show a :: t.set n (t.getD n 0) = a :: t
      rw [ih n]

/-- Every position of an all-zero buffer reads zero. -/
theorem replicate_getD (n : ℕ) : ∀ j : ℕ, (List.replicate n (0 : ℚ)).getD j 0 = 0 := by
  induction n with
  | zero => intro j; rfl
  | succ n ih =>
    intro j
    cases j with
    | zero => rfl
    | succ m => simp [List.replicate_succ, ih m]

/-- Reading any slot other than 0 of `impulseBuf` yields 0. -/
theorem impulseBuf_getD_ne (C : ℕ) (e : ℚ) (i : ℕ) (hi : i ≠ 0) :
    (impulseBuf C e).getD i 0 = 0 := by
  cases C with
  | zero => cases i <;> rfl
  | succ n =>
    cases i with
    | zero => exact absurd rfl hi
    | succ m => simp [impulseBuf, List.replicate_succ, replicate_getD n m]

/-- Reading slot 0 of a non-empty `impulseBuf` yields the stored value. -/
theorem impulseBuf_getD_zero (C : ℕ) (e : ℚ) (hC : 0 < C) :
    (impulseBuf C e).getD 0 0 = e := by
  cases C with
  | zero => omega
  | succ n => simp [impulseBuf, List.replicate_succ]

/-- Writing 0 into a non-zero slot of `impulseBuf` changes nothing. -/
theorem impulseBuf_set_ne (C : ℕ) (e : ℚ) (i : ℕ) (hi : i ≠ 0) :
    (impulseBuf C e).set i 0 = impulseBuf C e := by
  have h := set_getD_self (impulseBuf C e) i
  rwa [impulseBuf_getD_ne C e i hi] at h

/-- Overwriting slot 0 of a non-empty `impulseBuf` stores the new value. -/
theorem impulseBuf_set_zero (C : ℕ) (e v : ℚ) (hC : 0 < C) :
    (impulseBuf C e).set 0 v = impulseBuf C v := by
  cases C with
  | zero => omega
  | succ n => simp [impulseBuf, List.replicate_succ]

/-! ### Length preservation of the individual stages -/

/-- `apply_gain` preserves block length. -/
theorem apply_gain_length (g : ℚ) (audio : List ℚ) :
    (apply_gain g audio).length = audio.length := by
  simp [apply_gain]

/-- `apply_distortion` preserves block length. -/
theorem apply_distortion_length (th : ℚ → ℚ) (d : ℚ) (audio : List ℚ) :
    (apply_distortion th d audio).length = audio.length := by
  rw [apply_distortion]; split <;> simp

/-- A single biquad pass preserves block length. -/
theorem biquadRun_length (c : Biquad) :
    ∀ (xs : List ℚ) (s : ℚ × ℚ), ((biquadRun c s xs).1).length = xs.length := by
  intro xs
  induction xs with
  | nil => intro s; rfl
  | cons x t ih => intro s; simpa [biquadRun] using ih _

/-- `sosfilt` preserves block length. -/
theorem sosfilt_length (sos : List Biquad) :
    ∀ audio : List ℚ, (sosfilt sos audio).length = audio.length := by
  induction sos with
  | nil => intro audio; rfl
  | cons c cs ih =>
    intro audio
    rw [sosfilt, List.foldl_cons]
    have h := ih ((biquadRun c (0, 0) audio).1)
    rw [sosfilt] at h
    rw [h, biquadRun_length]

/-- `apply_eq` preserves block length. -/
theorem apply_eq_length (sB sT sM : List Biquad) (bass treble mid : ℚ)
    (audio : List ℚ) : (apply_eq sB sT sM bass treble mid audio).length = audio.length := by
  rw [apply_eq]
  split <;> split <;> split <;>
    simp [vadd, vsub, vscale, sosfilt_length]

/-- The reverb loop emits exactly one output sample per input sample. -/
theorem reverbLoop_length (mix : ℚ) (size : ℕ) :
    ∀ (xs buf : List ℚ) (idx : ℕ),
      ((reverbLoop mix size buf idx xs).1).length = xs.length := by
  intro xs
  induction xs with
  | nil => intro buf idx; rfl
  | cons x t ih => intro buf idx; simpa [reverbLoop] using ih _ _

/-- `apply_reverb` preserves block length. -/
theorem apply_reverb_length (mix : ℚ) (size : ℕ) (buf : List ℚ) (idx : ℕ)
    (audio : List ℚ) : ((apply_reverb mix size buf idx audio).1).length = audio.length := by
  rw [apply_reverb]; split
  · rfl
  · exact reverbLoop_length mix size audio buf idx

/-- The full chain preserves block length. -/
theorem process_length (th : ℚ → ℚ) (sB sT sM : List Biquad) (p : Params)
    (st : EngineState) (audio : List ℚ) :
    ((process th sB sT sM p st audio).1).length = audio.length := by
  rw [process]
  simp only [apply_reverb_length, apply_eq_length, apply_distortion_length,
    apply_gain_length]

/-- The cursor stays inside the buffer throughout the reverb loop. -/
theorem reverbLoop_idx_lt (mix : ℚ) (size : ℕ) :
    ∀ (xs buf : List ℚ) (idx : ℕ), idx < size →
      (reverbLoop mix size buf idx xs).2.2 < size := by
  intro xs
  induction xs with
  | nil => intro buf idx h; exact h
  | cons x t ih =>
    intro buf idx h
    have hpos : 0 < size := by omega
    simpa [reverbLoop] using ih _ _ (Nat.mod_lt _ hpos)

/-- Clamping into a nonempty range: numpy's `min (max v lo) hi` coincides
with the spec's `max (min v hi) lo`. -/
theorem np_clip_eq_max_min (v lo hi : ℚ) (h : lo ≤ hi) :
    np_clip v lo hi = max (min v hi) lo := by
  simp only [np_clip, min_def, max_def]
  split_ifs <;> linarith

/-- Instance of `np_clip_eq_max_min` for the gain range `[0.1, 5]`. -/
theorem np_clip_gain (v : ℚ) : np_clip v (1/10) 5 = max (min v 5) (1/10) :=
  np_clip_eq_max_min v _ _ (by norm_num)

/-- Instance of `np_clip_eq_max_min` for the ranges `[0, 1]`. -/
theorem np_clip_unit (v : ℚ) : np_clip v 0 1 = max (min v 1) 0 :=
  np_clip_eq_max_min v _ _ (by norm_num)

/-- Instance of `np_clip_eq_max_min` for the ranges `[-1, 1]`. -/
theorem np_clip_sym (v : ℚ) : np_clip v (-1) 1 = max (min v 1) (-1) :=
  np_clip_eq_max_min v _ _ (by norm_num)

/-! ### Claim theorems -/

/-- C9 (confirmed): gain linearity — every output sample of `apply_gain` is
the corresponding input sample times the gain parameter.  `apply_gain` is a
pure function of the block and the gain alone (see its type): it reads and
writes no other engine state. -/
theorem c9_gain_linearity (g : ℚ) (B : List ℚ) (i : ℕ) :
    (apply_gain g B).getD i 0 = B.getD i 0 * g := by
  induction B generalizing i with
  | nil => simp [apply_gain]
  | cons x xs ih =>
    cases i with
    | zero => simp [apply_gain]
    | succ n => simpa [apply_gain] using ih n

/-- C3 (confirmed): identity bypass — `distortion = 0` makes
`apply_distortion` the identity, `reverb_mix = 0` makes `apply_reverb` return
the block unchanged, and all three EQ bands at exactly 0 make `apply_eq` the
identity. -/
theorem c3_identity_bypass (th : ℚ → ℚ) (sB sT sM : List Biquad)
    (size : ℕ) (buf : List ℚ) (idx : ℕ) (B : List ℚ) :
    apply_distortion th 0 B = B ∧
    (apply_reverb 0 size buf idx B).1 = B ∧
    apply_eq sB sT sM 0 0 0 B = B := by
  refine ⟨?_, ?_, ?_⟩ <;> simp [apply_distortion, apply_reverb, apply_eq]

/-- C7 (confirmed): fixed pipeline order — `process` is exactly the
composition Reverb ∘ ToneControl ∘ Distortion ∘ Gain on the block (with the
reverb stage also producing the updated engine state); no stage is skipped
structurally. -/
theorem c7_pipeline_order (th : ℚ → ℚ) (sB sT sM : List Biquad)
    (p : Params) (st : EngineState) (audio : List ℚ) :
    process th sB sT sM p st audio =
      ((apply_reverb p.reverb_mix st.size st.buf st.idx
          (apply_eq sB sT sM p.bass p.treble p.mid
            (apply_distortion th p.distortion (apply_gain p.gain audio)))).1,
       { size := st.size
         buf := (apply_reverb p.reverb_mix st.size st.buf st.idx
            (apply_eq sB sT sM p.bass p.treble p.mid
              (apply_distortion th p.distortion (apply_gain p.gain audio)))).2.1
         idx := (apply_reverb p.reverb_mix st.size st.buf st.idx
            (apply_eq sB sT sM p.bass p.treble p.mid
              (apply_distortion th p.distortion (apply_gain p.gain audio)))).2.2 }) :=
  rfl

/-- C2, counterexample: at `distortion = 0` the stage returns its input
unchanged, so the block `[2]` yields the output sample `2 ∉ (-1, 1)` — the
claim fails for distortion parameter 0 as stated. -/
theorem c2_distortion_unbounded_at_zero :
    ¬ ∀ y ∈ apply_distortion softsign 0 [2], -1 < y ∧ y < 1 := by
  intro h
  have h2 := (h 2 (by simp [apply_distortion])).2
  norm_num at h2

/-- C2, amended (corrected): for `distortion ∈ (0, 1]` — the parameter range
minus the exact-zero identity bypass — every output sample of
`apply_distortion` lies strictly in `(-1, 1)`, for any nonlinearity `th`
mapping strictly into `(-1, 1)` (as `tanh` does, see `tanh_lt_one` and
`neg_one_lt_tanh`). -/
theorem c2_distortion_bounded (th : ℚ → ℚ) (d : ℚ) (audio : List ℚ)
    (hth : ∀ x, -1 < th x ∧ th x < 1) (hd : 0 < d) (_hd1 : d ≤ 1) :
    ∀ y ∈ apply_distortion th d audio, -1 < y ∧ y < 1 := by
  intro y hy
  rw [apply_distortion, if_neg (ne_of_gt hd)] at hy
  obtain ⟨x, -, rfl⟩ := List.mem_map.mp hy
  have h0 : (0 : ℚ) < 1 + d * (1/2) := by linarith
  obtain ⟨hl, hr⟩ := hth (x * (1 + d * 49))
  constructor
  · rw [lt_div_iff₀ h0]
    nlinarith
  · rw [div_lt_one h0]
    nlinarith

/-- C2, witness: the amended theorem applied at `th = softsign`,
`distortion = 1`, block `[2]`, evaluated on the one sample the stage emits. -/
theorem c2_distortion_bounded_witness :
    -1 < softsign (2 * (1 + 1 * 49)) / (1 + 1 * (1/2)) ∧
      softsign (2 * (1 + 1 * 49)) / (1 + 1 * (1/2)) < 1 :=
  c2_distortion_bounded softsign 1 [2] softsign_mem (by norm_num) (by norm_num)
    (softsign (2 * (1 + 1 * 49)) / (1 + 1 * (1/2))) (by simp [apply_distortion])

/-- C10 (confirmed): with `reverb_mix = 0` the reverb stage returns the input
and leaves buffer and cursor untouched; with `reverb_mix ≠ 0` it keeps the
cursor inside `[0, size)` (cursor is a `ℕ`, so `0 ≤` is intrinsic). -/
theorem c10_reverb_frame (mix : ℚ) (size : ℕ) (buf : List ℚ) (idx : ℕ)
    (B : List ℚ) :
    apply_reverb 0 size buf idx B = (B, buf, idx) ∧
    (mix ≠ 0 → idx < size → (apply_reverb mix size buf idx B).2.2 < size) := by
  refine ⟨by simp [apply_reverb], fun hm hi => ?_⟩
  rw [apply_reverb, if_neg hm]
  exact reverbLoop_idx_lt mix size B buf idx hi

/-- C10, witness: the frame theorem applied at `mix = 1`, a 3-slot buffer and
cursor 1. -/
theorem c10_reverb_frame_witness :
    apply_reverb 0 3 [1, 2, 3] 1 [4] = ([4], [1, 2, 3], 1) ∧
    (apply_reverb 1 3 [1, 2, 3] 1 [4]).2.2 < 3 :=
  ⟨(c10_reverb_frame 1 3 [1, 2, 3] 1 [4]).1,
   (c10_reverb_frame 1 3 [1, 2, 3] 1 [4]).2 (by norm_num) (by norm_num)⟩

/-- C1, evaluation at the failing input: with the bass band enabled
(`bass = 1`) and a single second-order section with delay memory
(`b = (1/4, 1/2, 1/4)`, `a = (1, 0, 0)`), filtering the two successive
blocks `[1]` and `[0]` does not agree with filtering the concatenation
`[1, 0]` once: the source stores no filter state and `sosfilt` restarts from
the all-zero state on every call, so the sample at index 1 is `0` from the
consecutive calls but `1` from the single call — the delay memory does not
persist across processing calls, contradicting the claim. -/
theorem c1_eq_state_not_persistent :
    apply_eq [⟨1/4, 1/2, 1/4, 0, 0⟩] [] [] 1 0 0 ([1] ++ [0]) ≠
      apply_eq [⟨1/4, 1/2, 1/4, 0, 0⟩] [] [] 1 0 0 [1] ++
        apply_eq [⟨1/4, 1/2, 1/4, 0, 0⟩] [] [] 1 0 0 [0] := by
  norm_num [apply_eq, sosfilt, biquadRun, vadd, vsub, vscale]

/-- C6, counterexample: two engines whose delay lines hold different
accumulated state (buffers `[0]` vs `[1]`) produce *identical* outputs on the
same input when `reverb_mix = 0` (the delay line is bypassed and never read),
refuting the claim's "different prior state ⇒ different output" half. -/
theorem c6_different_state_same_output :
    (⟨1, [0], 0⟩ : EngineState) ≠ (⟨1, [1], 0⟩ : EngineState) ∧
    (process softsign [] [] [] initParams ⟨1, [0], 0⟩ [1]).1 =
      (process softsign [] [] [] initParams ⟨1, [1], 0⟩ [1]).1 := by
  refine ⟨by simp, ?_⟩
  norm_num [process, apply_gain, apply_distortion, apply_eq, apply_reverb,
    initParams]

/-- C6, amended (corrected): `process` is deterministic — identical
parameters, engine state and input always give identical output (there is no
hidden randomness) — and differing delay-line state *can* (but need not)
change the output: with `reverb_mix = 1`, buffers `[0]` and `[5]` give
different outputs on the same input. -/
theorem c6_determinism (th : ℚ → ℚ) (sB sT sM : List Biquad)
    (p q : Params) (st1 st2 : EngineState) (a b : List ℚ)
    (hp : p = q) (hst : st1 = st2) (hab : a = b) :
    process th sB sT sM p st1 a = process th sB sT sM q st2 b ∧
    (process softsign [] [] [] { initParams with reverb_mix := 1 }
        ⟨1, [0], 0⟩ [0]).1 ≠
      (process softsign [] [] [] { initParams with reverb_mix := 1 }
        ⟨1, [5], 0⟩ [0]).1 := by
  subst hp; subst hst; subst hab
  refine ⟨rfl, ?_⟩
  norm_num [process, apply_gain, apply_distortion, apply_eq, apply_reverb,
    reverbLoop, initParams]

/-- C6, witness: determinism applied at concrete equal engines and block. -/
theorem c6_determinism_witness :
    process softsign [] [] [] initParams ⟨2, [0, 0], 0⟩ [1, 2] =
      process softsign [] [] [] initParams ⟨2, [0, 0], 0⟩ [1, 2] ∧
    (process softsign [] [] [] { initParams with reverb_mix := 1 }
        ⟨1, [0], 0⟩ [0]).1 ≠
      (process softsign [] [] [] { initParams with reverb_mix := 1 }
        ⟨1, [5], 0⟩ [0]).1 :=
  c6_determinism softsign [] [] [] initParams initParams ⟨2, [0, 0], 0⟩
    ⟨2, [0, 0], 0⟩ [1, 2] [1, 2] rfl rfl rfl

/-- C5 (confirmed): `set_parameters` stores every present field clamped to
its declared range as `max (min v hi) lo`, keeps every absent field at its
previous value, is total (no error path exists in the model), and in
particular stores `gain = 5` for a requested `10` and `bass = -1` for a
requested `-5`. -/
theorem c5_set_parameters_contract (p : Params) (u : ParamUpdate) :
    (set_parameters p u).gain =
        (match u.gain? with | some v => max (min v 5) (1/10) | none => p.gain) ∧
    (set_parameters p u).distortion =
        (match u.distortion? with | some v => max (min v 1) 0 | none => p.distortion) ∧
    (set_parameters p u).bass =
        (match u.bass? with | some v => max (min v 1) (-1) | none => p.bass) ∧
    (set_parameters p u).mid =
        (match u.mid? with | some v => max (min v 1) (-1) | none => p.mid) ∧
    (set_parameters p u).treble =
        (match u.treble? with | some v => max (min v 1) (-1) | none => p.treble) ∧
    (set_parameters p u).reverb_mix =
        (match u.reverb_mix? with | some v => max (min v 1) 0 | none => p.reverb_mix) ∧
    (set_parameters p { gain? := some 10 }).gain = 5 ∧
    (set_parameters p { bass? := some (-5) }).bass = -1 := by
  obtain ⟨g, d, b, m, t, r⟩ := u
  refine ⟨?_, ?_, ?_, ?_, ?_, ?_, ?_, ?_⟩
  · cases g with
    | none => simp only [set_parameters]
    | some v => simp only [set_parameters]; exact np_clip_gain v
  · cases d with
    | none => simp only [set_parameters]
    | some v => simp only [set_parameters]; exact np_clip_unit v
  · cases b with
    | none => simp only [set_parameters]
    | some v => simp only [set_parameters]; exact np_clip_sym v
  · cases m with
    | none => simp only [set_parameters]
    | some v => simp only [set_parameters]; exact np_clip_sym v
  · cases t with
    | none => simp only [set_parameters]
    | some v => simp only [set_parameters]; exact np_clip_sym v
  · cases r with
    | none => simp only [set_parameters]
    | some v => simp only [set_parameters]; exact np_clip_unit v
  · norm_num [set_parameters, np_clip]
  · norm_num [set_parameters, np_clip]

/-- C8 (confirmed): for every parameter combination inside the declared
ranges, a 44100 Hz engine and any input block of length 1024, `process`
returns a block of length exactly 1024.  In this rational-valued model every
arithmetic operation of the chain is total (the only division, by
`1 + distortion * 0.5`, has a positive denominator for `distortion ≥ 0`), so
every output sample is a finite rational by construction. -/
theorem c8_full_chain_length (th : ℚ → ℚ) (sB sT sM : List Biquad)
    (p : Params) (st : EngineState) (audio : List ℚ)
    (_hgain : 1/10 ≤ p.gain ∧ p.gain ≤ 5)
    (_hdist : 0 ≤ p.distortion ∧ p.distortion ≤ 1)
    (_hbass : -1 ≤ p.bass ∧ p.bass ≤ 1)
    (_hmid : -1 ≤ p.mid ∧ p.mid ≤ 1)
    (_htreble : -1 ≤ p.treble ∧ p.treble ≤ 1)
    (_hmix : 0 ≤ p.reverb_mix ∧ p.reverb_mix ≤ 1)
    (_hsr : st.size = reverbCapacity 44100)
    (hlen : audio.length = 1024) :
    ((process th sB sT sM p st audio).1).length = 1024 := by
  rw [process_length, hlen]

/-- C8, witness: the length theorem applied to the freshly constructed
44100 Hz engine and the all-zero block of length 1024. -/
theorem c8_full_chain_length_witness :
    ((process softsign [] [] [] initParams (initState 44100)
        (List.replicate 1024 0)).1).length = 1024 :=
  c8_full_chain_length softsign [] [] [] initParams (initState 44100)
    (List.replicate 1024 0) (by norm_num [initParams]) (by norm_num [initParams])
    (by norm_num [initParams]) (by norm_num [initParams])
    (by norm_num [initParams]) (by norm_num [initParams]) rfl
    (List.length_replicate 1024 0)

/-! ### Reverb impulse response (C4) -/

/-- The reverb loop distributes over concatenated input, threading the buffer
and cursor through. -/
theorem reverbLoop_append (mix : ℚ) (size : ℕ) :
    ∀ (xs ys buf : List ℚ) (idx : ℕ),
      reverbLoop mix size buf idx (xs ++ ys) =
        ((reverbLoop mix size buf idx xs).1 ++
            (reverbLoop mix size (reverbLoop mix size buf idx xs).2.1
              (reverbLoop mix size buf idx xs).2.2 ys).1,
          (reverbLoop mix size (reverbLoop mix size buf idx xs).2.1
            (reverbLoop mix size buf idx xs).2.2 ys).2) := by
  intro xs
  induction xs with
  | nil => intro ys buf idx; simp [reverbLoop]
  | cons x t ih =>
    intro ys buf idx
    simp only [List.cons_append, reverbLoop, ih, List.append_eq]

/-- Sweeping the cursor across non-zero slots of an impulse-loaded buffer
with zero input reads zeros, writes zeros back, and emits silence. -/
theorem reverbLoop_zeros_pass (C : ℕ) (e : ℚ) :
    ∀ m i : ℕ, i ≠ 0 → i < C → i + m ≤ C →
      reverbLoop 1 C (impulseBuf C e) i (List.replicate m 0) =
        (List.replicate m 0, impulseBuf C e, (i + m) % C) := by
  intro m
  induction m with
  | zero =>
    intro i hi0 hiC _
    simp [reverbLoop, Nat.mod_eq_of_lt hiC]
  | succ m ih =>
    intro i hi0 hiC hm
    rw [List.replicate_succ]
    simp only [reverbLoop]
    rw [impulseBuf_getD_ne C e i hi0]
    have hset : (impulseBuf C e).set i ((0 : ℚ) + 0 * (3/10)) = impulseBuf C e := by
      rw [show ((0 : ℚ) + 0 * (3/10)) = 0 by norm_num]
      exact impulseBuf_set_ne C e i hi0
    rw [hset]
    rcases Nat.lt_or_ge (i + 1) C with hLt | hGe
    · rw [Nat.mod_eq_of_lt hLt, ih (i + 1) (Nat.succ_ne_zero i) hLt (by omega)]
      rw [show i + 1 + m = i + (m + 1) by omega]
      norm_num [List.replicate_succ]
    · have hm0 : m = 0 := by omega
      subst hm0
      rw [show List.replicate 0 (0 : ℚ) = [] from rfl]
      simp only [reverbLoop]
      rw [show i + (0 + 1) = i + 1 by omega]
      norm_num

/-- One full revolution of the cursor over zero input: the echo stored in
slot 0 is emitted once, preceded by `C - 1` silent samples, and is written
back attenuated by the feedback coefficient `0.3`. -/
theorem reverbLoop_chunk (C : ℕ) (e : ℚ) (hC : 0 < C) :
    reverbLoop 1 C (impulseBuf C e) (1 % C) (List.replicate C 0) =
      (List.replicate (C - 1) 0 ++ [e], impulseBuf C (e * (3/10)), 1 % C) := by
  rcases C with _ | n
  · omega
  rcases n with _ | n
  · simp only [reverbLoop, List.replicate_succ, List.replicate_zero]
    rw [impulseBuf_getD_zero 1 e (by omega)]
    rw [show ((0 : ℚ) + e * (3/10)) = e * (3/10) by ring]
    rw [impulseBuf_set_zero 1 e (e * (3/10)) (by omega)]
    norm_num
  · have h1 : 1 % (n + 2) = 1 := Nat.mod_eq_of_lt (by omega)
    rw [h1]
    rw [show List.replicate (n + 2) (0 : ℚ) = List.replicate (n + 1) 0 ++ [0] by
      rw [List.replicate_succ']]
    rw [reverbLoop_append]
    rw [reverbLoop_zeros_pass (n + 2) e (n + 1) 1 one_ne_zero (by omega) (by omega)]
    rw [show (1 + (n + 1)) % (n + 2) = 0 by
      rw [show 1 + (n + 1) = n + 2 by omega, Nat.mod_self]]
    simp only [reverbLoop]
    rw [impulseBuf_getD_zero (n + 2) e (by omega)]
    rw [show ((0 : ℚ) + e * (3/10)) = e * (3/10) by ring]
    rw [impulseBuf_set_zero (n + 2) e (e * (3/10)) (by omega)]
    rw [show (0 + 1) % (n + 2) = 1 from h1 ▸ rfl]
    norm_num [h1]

/-- Spinning the delay line for `k` full revolutions over zero input turns an
impulse of amplitude `e` in slot 0 into the echo train with ratio `0.3`. -/
theorem reverbLoop_echo_train (C : ℕ) (hC : 0 < C) :
    ∀ (k : ℕ) (e : ℚ),
      reverbLoop 1 C (impulseBuf C e) (1 % C) (List.replicate (k * C) 0) =
        (echoTrain C k e, impulseBuf C (e * (3/10) ^ k), 1 % C) := by
  intro k
  induction k with
  | zero =>
    intro e
    simp [reverbLoop, echoTrain]
  | succ k ih =>
    intro e
    rw [show (k + 1) * C = C + k * C by ring, List.replicate_add]
    rw [reverbLoop_append, reverbLoop_chunk C e hC]
    rw [ih (e * (3/10))]
    rw [show e * (3/10) * (3/10) ^ k = e * (3/10) ^ (k + 1) by ring]
    rfl

/-- C4 (confirmed): starting from the all-zero delay buffer of capacity
`floor(0.05 * sampleRate)` with the cursor at 0, feeding a unit impulse
(first sample `1`, all later samples `0`) through the reverb stage with
`mix = 1` produces exactly the echo train: one echo every `capacity` samples,
each successive echo's amplitude the previous one's times `0.3` (see
`echoTrain`). -/
theorem c4_reverb_impulse_response (sampleRate k : ℕ)
    (hC : 0 < reverbCapacity sampleRate) :
    (apply_reverb 1 (reverbCapacity sampleRate)
        (List.replicate (reverbCapacity sampleRate) 0) 0
        (1 :: List.replicate (k * reverbCapacity sampleRate) 0)).1 =
      0 :: echoTrain (reverbCapacity sampleRate) k 1 := by
  rw [apply_reverb, if_neg (by norm_num)]
  simp only [reverbLoop]
  rw [replicate_getD (reverbCapacity sampleRate) 0]
  rw [show ((1 : ℚ) + 0 * (3/10)) = 1 by ring]
  rw [show (List.replicate (reverbCapacity sampleRate) (0 : ℚ)).set 0 1 =
      impulseBuf (reverbCapacity sampleRate) 1 from rfl]
  rw [show (0 + 1) % reverbCapacity sampleRate = 1 % reverbCapacity sampleRate from rfl]
  rw [reverbLoop_echo_train (reverbCapacity sampleRate) hC k 1]
  norm_num

/-- C4, witness: the impulse-response theorem at a 40 Hz sample rate
(capacity 2) with two echoes. -/
theorem c4_reverb_impulse_response_witness :
    0 < reverbCapacity 40 ∧
    (apply_reverb 1 (reverbCapacity 40) (List.replicate (reverbCapacity 40) 0) 0
        (1 :: List.replicate (2 * reverbCapacity 40) 0)).1 =
      0 :: echoTrain (reverbCapacity 40) 2 1 :=
  ⟨by decide, c4_reverb_impulse_response 40 2 (by decide)⟩

end VirtualAmp
